import Mathlib

set_option linter.unusedVariables false

/-!
Shallow embedding of the geode-go-client connector package
(src/connector/protobuf.go and src/connector/pool.go):
the value codec, the GetAll response processing, the message-exchange
error classification, and the connection pool state machine.
-/

/-- Native Go values dispatched on by `EncodeValue` in protobuf.go.
Float payloads are carried as opaque bit patterns: the codec never computes
with floats, it only moves them between the native value and the wire slot.
`VStruct j` models a composite value whose `json.Marshal` succeeds and
produces the text `j`; `VBadStruct m` models a value whose `json.Marshal`
fails with message `m` (e.g. a value containing a channel). -/
inductive GoValue where
  | VInt (n : Int)
  | VInt16 (n : Int)
  | VInt32 (n : Int)
  | VInt64 (n : Int)
  | VByte (n : Nat)
  | VBool (b : Bool)
  | VFloat64 (bits : Nat)
  | VFloat32 (bits : Nat)
  | VBinary (bs : List Nat)
  | VString (s : String)
  | VNil
  | VStruct (j : String)
  | VBadStruct (m : String)
deriving DecidableEq

/-- Go-range well-formedness of integer payloads: a `GoValue` corresponds to
a real Go value only when its integer payload lies in the range of the Go
type (int is 64-bit on the supported platforms; byte is uint8). -/
def GoValue.wf : GoValue → Bool
  | .VInt n => decide (-(2^63) ≤ n ∧ n < 2^63)
  | .VInt16 n => decide (-(2^15) ≤ n ∧ n < 2^15)
  | .VInt32 n => decide (-(2^31) ≤ n ∧ n < 2^31)
  | .VInt64 n => decide (-(2^63) ≤ n ∧ n < 2^63)
  | .VByte n => decide (n < 256)
  | _ => true

/-- Go conversion `int32(k)`: two's-complement truncation to 32 bits. -/
def toInt32 (n : Int) : Int := (n + 2^31) % 2^32 - 2^31

/-- Go conversion `uint8(k)`: the low 8 bits, as an unsigned value. -/
def toUInt8 (n : Int) : Nat := (n % 256).toNat

/-- The wire tagged union `v1.EncodedValue` (protobuf oneof `Value`).
The generated Go struct carries `ShortResult` and `ByteResult` in `int32`
fields, which is why their payload here is `Int`. `Unset` models a message
whose oneof field is not populated (`GetValue()` returns nil). -/
inductive EncodedValue where
  | IntResult (n : Int)
  | ShortResult (n : Int)
  | LongResult (n : Int)
  | ByteResult (n : Int)
  | BooleanResult (b : Bool)
  | DoubleResult (bits : Nat)
  | FloatResult (bits : Nat)
  | BinaryResult (bs : List Nat)
  | StringResult (s : String)
  | JsonObjectResult (j : String)
  | NullResult
  | Unset
deriving DecidableEq

/-- `EncodeValue` (protobuf.go lines 597-636). Dispatch on the dynamic type
of the input. `case int` applies `int32(k)` (a truncating conversion);
`case int16` applies `int32(k)` which is exact on every int16 value, so the
payload is carried unchanged; `case int32`/`case int64` store the payload
without conversion; `case byte` applies `int32(k)`, exact on uint8 values.
The default branch marshals the value to JSON, failing only when
`json.Marshal` fails. -/
def EncodeValue : GoValue → Except String EncodedValue
  | .VInt n => .ok (.IntResult (toInt32 n))
  | .VInt16 n => .ok (.ShortResult n)
  | .VInt32 n => .ok (.IntResult n)
  | .VInt64 n => .ok (.LongResult n)
  | .VByte n => .ok (.ByteResult (n : Int))
  | .VBool b => .ok (.BooleanResult b)
  | .VFloat64 bits => .ok (.DoubleResult bits)
  | .VFloat32 bits => .ok (.FloatResult bits)
  | .VBinary bs => .ok (.BinaryResult bs)
  | .VString s => .ok (.StringResult s)
  | .VNil => .ok .NullResult
  | .VStruct j => .ok (.JsonObjectResult j)
  | .VBadStruct m => .error m

/-- Model of `encoding/json.Unmarshal` as invoked by `DecodeValue`:
unmarshalling into a nil target always fails (Go reports
"json: Unmarshal(nil)"); unmarshalling into a non-nil template fills the
template from the text, which this model represents as `VStruct j`. The
claims under verification never depend on the parsed content of a
successful unmarshal. -/
def jsonUnmarshal (j : String) : Option GoValue → Except String GoValue
  | none => .error "json: Unmarshal(nil)"
  | some _ => .ok (.VStruct j)

/-- `DecodeValue` (protobuf.go lines 689-725). Scalar tags decode to the
native value of the generated struct's field type: `IntResult` and
`ShortResult` both carry `int32` fields, so both decode to an int32-typed
value; `ByteResult` applies `uint8(...)`; only `JsonObjectResult` consults
the `ref` template. A null or unset tag decodes to nil. -/
def DecodeValue (value : EncodedValue) (ref : Option GoValue) : Except String GoValue :=
  match value with
  | .IntResult n => .ok (.VInt32 n)
  | .ShortResult n => .ok (.VInt32 n)
  | .LongResult n => .ok (.VInt64 n)
  | .ByteResult n => .ok (.VByte (toUInt8 n))
  | .BooleanResult b => .ok (.VBool b)
  | .DoubleResult bits => .ok (.VFloat64 bits)
  | .FloatResult bits => .ok (.VFloat32 bits)
  | .BinaryResult bs => .ok (.VBinary bs)
  | .StringResult s => .ok (.VString s)
  | .JsonObjectResult j => jsonUnmarshal j ref
  | .NullResult => .ok .VNil
  | .Unset => .ok .VNil

/-- Composition of encoding and decoding, the round trip of the spec. -/
def roundTrip (x : GoValue) (ref : Option GoValue) : Except String GoValue :=
  (EncodeValue x).bind (fun e => DecodeValue e ref)

/-- C1 (counterexample): encoding the Go value `int16(5)` and decoding the
result does not reproduce a value of type int16 — it yields the int32-typed
value 5, because the wire slot for shorts is an int32 field and
`DecodeValue` returns that field directly. -/
theorem c1_counterexample :
    roundTrip (.VInt16 5) none = .ok (.VInt32 5) ∧
    roundTrip (.VInt16 5) none ≠ .ok (.VInt16 5) := by
  refine ⟨rfl, fun h => ?_⟩
  simp [roundTrip, EncodeValue, DecodeValue, Except.bind] at h

/-- C1 (amended): the encode/decode round trip reproduces the input exactly
(value and type) for int32, int64, byte, boolean, double, float,
byte-sequence and string inputs, for any template; an int16 input comes
back as the int32-typed value with the same numeric value, and a Go int
input comes back as the int32-typed value obtained by the truncating
`int32(k)` conversion (exact whenever the input fits in 32 bits). -/
theorem c1_roundtrip_amended (ref : Option GoValue) :
    (∀ n : Nat, (GoValue.VByte n).wf = true → roundTrip (.VByte n) ref = .ok (.VByte n)) ∧
    (∀ n : Int, roundTrip (.VInt16 n) ref = .ok (.VInt32 n)) ∧
    (∀ n : Int, roundTrip (.VInt n) ref = .ok (.VInt32 (toInt32 n))) ∧
    (∀ n : Int, roundTrip (.VInt32 n) ref = .ok (.VInt32 n)) ∧
    (∀ n : Int, roundTrip (.VInt64 n) ref = .ok (.VInt64 n)) ∧
    (∀ b : Bool, roundTrip (.VBool b) ref = .ok (.VBool b)) ∧
    (∀ bits : Nat, roundTrip (.VFloat64 bits) ref = .ok (.VFloat64 bits)) ∧
    (∀ bits : Nat, roundTrip (.VFloat32 bits) ref = .ok (.VFloat32 bits)) ∧
    (∀ bs : List Nat, roundTrip (.VBinary bs) ref = .ok (.VBinary bs)) ∧
    (∀ s : String, roundTrip (.VString s) ref = .ok (.VString s)) := by
  constructor
  · intro n hn
    have h : n < 256 := by simpa [GoValue.wf] using hn
    have h2 : toUInt8 (n : Int) = n := by simp [toUInt8]; omega
    simp [roundTrip, EncodeValue, DecodeValue, Except.bind, h2]
  refine ⟨?_, ?_, ?_, ?_, ?_, ?_, ?_, ?_, ?_⟩ <;> intros <;> rfl

/-- C1 (witness for the amended theorem): the byte 200 round-trips. -/
theorem c1_witness : roundTrip (.VByte 200) none = .ok (.VByte 200) :=
  (c1_roundtrip_amended none).1 200 (by decide)

/-- `EncodeList` (protobuf.go lines 638-655), specialized to an input that
is already sequence-like (the reflective slice/array kind check is
satisfied by construction for a Lean list): encode each element in order,
stopping at the first encode failure. -/
def EncodeList (l : List GoValue) : Except String (List EncodedValue) :=
  match l with
  | [] => .ok []
  | x :: rest =>
    match EncodeValue x with
    | .error e => .error e
    | .ok ev =>
      match EncodeList rest with
      | .error e => .error e
      | .ok es => .ok (ev :: es)

/-- The wire message `v1.EncodedValueList`. -/
structure EncodedValueList where
  element : List EncodedValue
deriving DecidableEq

/-- `EncodeValueList` (protobuf.go lines 657-664). -/
def EncodeValueList (l : List GoValue) : Except String EncodedValueList :=
  (EncodeList l).map (fun es => ⟨es⟩)

/-- The wire message `v1.Table`: parallel arrays of column names and
per-column encoded value lists. -/
structure Table where
  fieldName : List String
  row : List EncodedValueList
deriving DecidableEq

/-- Helper for `EncodeTable`: the loop body over the map's iteration
sequence, building the two parallel arrays in iteration order and stopping
at the first encoding failure. -/
def encodeColumns : List (String × List GoValue) → Except String (List String × List EncodedValueList)
  | [] => .ok ([], [])
  | (k, v) :: rest =>
    match EncodeValueList v with
    | .error e => .error e
    | .ok list =>
      match encodeColumns rest with
      | .error e => .error e
      | .ok (ns, cs) => .ok (k :: ns, list :: cs)

/-- `EncodeTable` (protobuf.go lines 666-687). A Go map has no defined
iteration order, so the embedding takes the iteration sequence of the map
(an association list) as the input: every iteration order corresponds to
some input list. -/
def EncodeTable (table : List (String × List GoValue)) : Except String Table :=
  (encodeColumns table).map (fun p => { fieldName := p.1, row := p.2 })

/-- Successful list encoding relates input and output element-wise in
order: `EncodeList` maps each element through `EncodeValue`. -/
theorem encodeList_forall2 {v : List GoValue} {col : List EncodedValue}
    (h : EncodeList v = .ok col) :
    List.Forall₂ (fun x c => EncodeValue x = .ok c) v col := by
  induction v generalizing col with
  | nil =>
    simp [EncodeList] at h
    simp [← h]
  | cons x rest ih =>
    cases hx : EncodeValue x with
    | error e => simp [EncodeList, hx] at h
    | ok ev =>
      cases hr : EncodeList rest with
      | error e => simp [EncodeList, hx, hr] at h
      | ok es =>
        simp [EncodeList, hx, hr] at h
        rw [← h]
        exact List.Forall₂.cons hx (ih hr)

/-- Successful column encoding yields the column names in iteration order
and, in parallel, the encoded list of each column's values. -/
theorem encodeColumns_spec {t : List (String × List GoValue)}
    {ns : List String} {cs : List EncodedValueList}
    (h : encodeColumns t = .ok (ns, cs)) :
    ns = t.map Prod.fst ∧
    List.Forall₂ (fun (kv : String × List GoValue) (col : EncodedValueList) =>
      EncodeValueList kv.2 = .ok col) t cs := by
  induction t generalizing ns cs with
  | nil =>
    simp [encodeColumns] at h
    simp [← h.1, ← h.2]
  | cons kv rest ih =>
    obtain ⟨k, v⟩ := kv
    cases hv : EncodeValueList v with
    | error e => simp [encodeColumns, hv] at h
    | ok list =>
      cases hr : encodeColumns rest with
      | error e => simp [encodeColumns, hv, hr] at h
      | ok p =>
        obtain ⟨ns2, cs2⟩ := p
        simp [encodeColumns, hv, hr] at h
        obtain ⟨h1, h2⟩ := h
        obtain ⟨ih1, ih2⟩ := ih hr
        subst h1 h2
        exact ⟨by simp [ih1], List.Forall₂.cons hv ih2⟩

/-- C7: for every iteration sequence of the input map, `EncodeTable`
produces two parallel arrays of equal length — the column names in
iteration order and, at each index, the element-wise `EncodeValue`
encoding of that column's value sequence, preserving the order of values
within the column. -/
theorem c7_encodeTable_parallel (t : List (String × List GoValue)) (tab : Table)
    (h : EncodeTable t = .ok tab) :
    tab.fieldName.length = tab.row.length ∧
    tab.fieldName = t.map Prod.fst ∧
    List.Forall₂ (fun (kv : String × List GoValue) (col : EncodedValueList) =>
      List.Forall₂ (fun x c => EncodeValue x = .ok c) kv.2 col.element) t tab.row := by
  cases hc : encodeColumns t with
  | error e => simp [EncodeTable, hc, Except.map] at h
  | ok p =>
    obtain ⟨ns, cs⟩ := p
    simp [EncodeTable, hc, Except.map] at h
    obtain ⟨hspec1, hspec2⟩ := encodeColumns_spec hc
    have hrel : List.Forall₂ (fun (kv : String × List GoValue) (col : EncodedValueList) =>
        List.Forall₂ (fun x c => EncodeValue x = .ok c) kv.2 col.element) t cs := by
      refine hspec2.imp (fun {a} {b} hab => ?_)
      cases hb : EncodeList a.2 with
      | error e => simp [EncodeValueList, hb, Except.map] at hab
      | ok es =>
        have h2 := encodeList_forall2 hb
        simp [EncodeValueList, hb, Except.map] at hab
        subst hab
        simpa using h2
    have hlen2 : t.length = cs.length := hrel.length_eq
    subst h
    refine ⟨?_, by simpa using hspec1, hrel⟩
    simp only [Table.fieldName, Table.row]
    rw [hspec1]
    simpa using hlen2

/-- C7 (witness): the spec's example table with columns a ↦ [1, 2] and
b ↦ [3, 4], in one iteration order. -/
theorem c7_witness :
    (Table.mk ["a", "b"] [⟨[.IntResult 1, .IntResult 2]⟩, ⟨[.IntResult 3, .IntResult 4]⟩]).fieldName.length =
      (Table.mk ["a", "b"] [⟨[.IntResult 1, .IntResult 2]⟩, ⟨[.IntResult 3, .IntResult 4]⟩]).row.length ∧
    (Table.mk ["a", "b"] [⟨[.IntResult 1, .IntResult 2]⟩, ⟨[.IntResult 3, .IntResult 4]⟩]).fieldName =
      ([("a", [GoValue.VInt32 1, GoValue.VInt32 2]), ("b", [GoValue.VInt32 3, GoValue.VInt32 4])].map Prod.fst) ∧
    List.Forall₂ (fun (kv : String × List GoValue) (col : EncodedValueList) =>
      List.Forall₂ (fun x c => EncodeValue x = .ok c) kv.2 col.element)
      [("a", [GoValue.VInt32 1, GoValue.VInt32 2]), ("b", [GoValue.VInt32 3, GoValue.VInt32 4])]
      (Table.mk ["a", "b"] [⟨[.IntResult 1, .IntResult 2]⟩, ⟨[.IntResult 3, .IntResult 4]⟩]).row :=
  c7_encodeTable_parallel
    [("a", [GoValue.VInt32 1, GoValue.VInt32 2]), ("b", [GoValue.VInt32 3, GoValue.VInt32 4])]
    (Table.mk ["a", "b"] [⟨[.IntResult 1, .IntResult 2]⟩, ⟨[.IntResult 3, .IntResult 4]⟩])
    rfl

/-- One entry of a GetAll response (wire message `v1.Entry`). -/
structure GetAllEntry where
  key : EncodedValue
  value : EncodedValue
deriving DecidableEq

/-- One failure of a GetAll response (wire message `v1.KeyedError`): an
encoded key plus the server's error message and numeric error code. -/
structure GetAllFailure where
  key : EncodedValue
  errorMessage : String
  errorCode : Int
deriving DecidableEq

/-- Whether the association list modelling a Go map binds the key. -/
def keyMem (m : List (GoValue × α)) (k : GoValue) : Bool :=
  m.any (fun p => decide (p.1 = k))

/-- Go map assignment m[k] = v: overwrite an existing binding, otherwise
append a new one (binding order is irrelevant to the claims). -/
def mapInsert (m : List (GoValue × α)) (k : GoValue) (v : α) : List (GoValue × α) :=
  if keyMem m k then m.map (fun p => if p.1 = k then (k, v) else p) else m ++ [(k, v)]

/-- Minimal rendering of a decoded key for interpolation into error
messages (Go fmt %v); the exact text is irrelevant to the claims. -/
def goStr : GoValue → String
  | .VInt n => toString n
  | .VInt16 n => toString n
  | .VInt32 n => toString n
  | .VInt64 n => toString n
  | .VByte n => toString n
  | .VBool b => toString b
  | .VFloat64 bits => toString bits
  | .VFloat32 bits => toString bits
  | .VBinary bs => toString bs
  | .VString s => s
  | .VNil => "<nil>"
  | .VStruct j => j
  | .VBadStruct m => m

/-- The GetAll response-entry loop (protobuf.go lines 167-180): decode each
entry's key with a nil template; a key-decode failure returns a terminal
error for the whole call; a value-decode failure records the key in the
failure map and continues with the next entry; otherwise the decoded pair
is recorded in the success map. -/
def processEntries : List GetAllEntry → List (GoValue × GoValue) → List (GoValue × String) →
    Except String (List (GoValue × GoValue) × List (GoValue × String))
  | [], succ, fail => .ok (succ, fail)
  | e :: rest, succ, fail =>
    match DecodeValue e.key none with
    | .error msg => .error ("unable to decode GetAll response key: " ++ msg)
    | .ok k =>
      match DecodeValue e.value none with
      | .error msg =>
        processEntries rest succ
          (mapInsert fail k ("unable to decode GetAll value for key: " ++ goStr k ++ ": " ++ msg))
      | .ok v => processEntries rest (mapInsert succ k v) fail

/-- The GetAll response-failure loop (protobuf.go lines 182-189): decode
each failure's key with a nil template; a key-decode failure returns a
terminal error; otherwise record the wrapped server error under the key. -/
def processFailures : List GetAllFailure → List (GoValue × String) →
    Except String (List (GoValue × String))
  | [], fail => .ok fail
  | f :: rest, fail =>
    match DecodeValue f.key none with
    | .error msg => .error ("unable to decode GetAll failure response for key: " ++ msg)
    | .ok k =>
      processFailures rest
        (mapInsert fail k (f.errorMessage ++ " (" ++ toString f.errorCode ++ ")"))

/-- Response processing of `GetAll` (protobuf.go lines 164-196): run both
loops and normalize an empty failure map to absence (nil). -/
def getAllProcess (entries : List GetAllEntry) (failures : List GetAllFailure) :
    Except String (List (GoValue × GoValue) × Option (List (GoValue × String))) :=
  match processEntries entries [] [] with
  | .error e => .error e
  | .ok (succ, fail) =>
    match processFailures failures fail with
    | .error e => .error e
    | .ok fail2 => if fail2.isEmpty then .ok (succ, none) else .ok (succ, some fail2)

/-- C2 (counterexample): a GetAll response with a single entry whose key
fails to decode (a JSON-object-tagged key, decoded with a nil template)
makes the whole GetAll processing return a terminal error instead of the
two result maps — the key-decode failure aborts processing. -/
theorem c2_counterexample :
    getAllProcess [⟨.JsonObjectResult "1", .StringResult "v"⟩] [] =
      .error "unable to decode GetAll response key: json: Unmarshal(nil)" := by
  rfl

/-- Inserting a binding makes its key present. -/
theorem keyMem_mapInsert_self (m : List (GoValue × α)) (k : GoValue) (v : α) :
    keyMem (mapInsert m k v) k = true := by
  unfold mapInsert
  by_cases h : keyMem m k = true
  · rw [if_pos h]
    simp only [keyMem, List.any_eq_true, decide_eq_true_eq] at h ⊢
    obtain ⟨p, hp, hpk⟩ := h
    refine ⟨(k, v), ?_, rfl⟩
    simp only [List.mem_map]
    exact ⟨p, hp, by simp [hpk]⟩
  · rw [if_neg h]
    simp [keyMem]

/-- Insertion never removes a key that was present. -/
theorem keyMem_mapInsert_mono (m : List (GoValue × α)) (k k2 : GoValue) (v : α)
    (h : keyMem m k2 = true) : keyMem (mapInsert m k v) k2 = true := by
  unfold mapInsert
  by_cases hm : keyMem m k = true
  · rw [if_pos hm]
    simp only [keyMem, List.any_eq_true, decide_eq_true_eq] at h ⊢
    obtain ⟨p, hp, hpk⟩ := h
    by_cases hpe : p.1 = k
    · refine ⟨(k, v), ?_, ?_⟩
      · simp only [List.mem_map]
        exact ⟨p, hp, by simp [hpe]⟩
      · simp [← hpe, hpk]
    · refine ⟨p, ?_, hpk⟩
      simp only [List.mem_map]
      exact ⟨p, hp, by simp [hpe]⟩
  · rw [if_neg hm]
    simp only [keyMem, List.any_eq_true, decide_eq_true_eq] at h ⊢
    obtain ⟨p, hp, hpk⟩ := h
    exact ⟨p, by simp [hp], hpk⟩

/-- A present key makes the map nonempty. -/
theorem keyMem_not_isEmpty {m : List (GoValue × α)} {k : GoValue}
    (h : keyMem m k = true) : m.isEmpty = false := by
  cases m with
  | nil => simp [keyMem] at h
  | cons p rest => simp [List.isEmpty]

/-- The entry loop never aborts when every entry's key decodes, and then
it records every cleanly decoded pair in the success map and every
value-decode failure in the failure map, while only growing both maps. -/
theorem processEntries_ok (entries : List GetAllEntry) :
    ∀ succ fail,
    (∀ e ∈ entries, ∃ k, DecodeValue e.key none = .ok k) →
    ∃ S F, processEntries entries succ fail = .ok (S, F) ∧
      (∀ k, keyMem succ k = true → keyMem S k = true) ∧
      (∀ k, keyMem fail k = true → keyMem F k = true) ∧
      (∀ e ∈ entries, ∀ k v, DecodeValue e.key none = .ok k →
          DecodeValue e.value none = .ok v → keyMem S k = true) ∧
      (∀ e ∈ entries, ∀ k, DecodeValue e.key none = .ok k →
          (∃ m, DecodeValue e.value none = .error m) → keyMem F k = true) := by
  induction entries with
  | nil =>
    intro succ fail hk
    exact ⟨succ, fail, rfl, fun k h => h, fun k h => h, by simp, by simp⟩
  | cons e rest ih =>
    intro succ fail hk
    obtain ⟨k0, hk0⟩ := hk e (by simp)
    cases hv : DecodeValue e.value none with
    | ok v =>
      obtain ⟨S, F, hrun, hS, hF, hSmem, hFmem⟩ :=
        ih (mapInsert succ k0 v) fail (fun e2 he2 => hk e2 (by simp [he2]))
      refine ⟨S, F, ?_, ?_, hF, ?_, ?_⟩
      · rw [processEntries, hk0, hv]
        exact hrun
      · intro k h
        exact hS k (keyMem_mapInsert_mono succ k0 k v h)
      · intro e2 he2 k v2 hkey hval
        rcases List.mem_cons.mp he2 with he2 | he2
        · subst he2
          rw [hk0] at hkey
          injection hkey with hkey
          subst hkey
          exact hS k0 (keyMem_mapInsert_self succ k0 v)
        · exact hSmem e2 he2 k v2 hkey hval
      · intro e2 he2 k hkey hbad
        rcases List.mem_cons.mp he2 with he2 | he2
        · subst he2
          obtain ⟨m, hm⟩ := hbad
          rw [hv] at hm
          exact absurd hm (by simp)
        · exact hFmem e2 he2 k hkey hbad
    | error msg =>
      obtain ⟨S, F, hrun, hS, hF, hSmem, hFmem⟩ :=
        ih succ
          (mapInsert fail k0 ("unable to decode GetAll value for key: " ++ goStr k0 ++ ": " ++ msg))
          (fun e2 he2 => hk e2 (by simp [he2]))
      refine ⟨S, F, ?_, hS, ?_, ?_, ?_⟩
      · rw [processEntries, hk0, hv]
        exact hrun
      · intro k h
        exact hF k (keyMem_mapInsert_mono fail k0 k _ h)
      · intro e2 he2 k v2 hkey hval
        rcases List.mem_cons.mp he2 with he2 | he2
        · subst he2
          rw [hv] at hval
          exact absurd hval (by simp)
        · exact hSmem e2 he2 k v2 hkey hval
      · intro e2 he2 k hkey hbad
        rcases List.mem_cons.mp he2 with he2 | he2
        · subst he2
          rw [hk0] at hkey
          injection hkey with hkey
          subst hkey
          exact hF k0 (keyMem_mapInsert_self fail k0 _)
        · exact hFmem e2 he2 k hkey hbad

/-- The failure loop never aborts when every failure's key decodes, and
then it records every failure under its decoded key, only growing the
failure map. -/
theorem processFailures_ok (failures : List GetAllFailure) :
    ∀ fail,
    (∀ f ∈ failures, ∃ k, DecodeValue f.key none = .ok k) →
    ∃ F2, processFailures failures fail = .ok F2 ∧
      (∀ k, keyMem fail k = true → keyMem F2 k = true) ∧
      (∀ f ∈ failures, ∀ k, DecodeValue f.key none = .ok k → keyMem F2 k = true) := by
  induction failures with
  | nil =>
    intro fail hf
    exact ⟨fail, rfl, fun k h => h, by simp⟩
  | cons f rest ih =>
    intro fail hf
    obtain ⟨k0, hk0⟩ := hf f (by simp)
    obtain ⟨F2, hrun, hmono, hmem⟩ :=
      ih (mapInsert fail k0 (f.errorMessage ++ " (" ++ toString f.errorCode ++ ")"))
        (fun f2 hf2 => hf f2 (by simp [hf2]))
    refine ⟨F2, ?_, ?_, ?_⟩
    · rw [processFailures, hk0]
      exact hrun
    · intro k h
      exact hmono k (keyMem_mapInsert_mono fail k0 k _ h)
    · intro f2 hf2 k hkey
      rcases List.mem_cons.mp hf2 with hf2 | hf2
      · subst hf2
        rw [hk0] at hkey
        injection hkey with hkey
        subst hkey
        exact hmono k0 (keyMem_mapInsert_self fail k0 _)
      · exact hmem f2 hf2 k hkey

/-- C2 (amended): provided every returned entry's key and every returned
failure's key decodes successfully, GetAll response processing never
aborts: it returns the success map and the (absent-when-empty) failure
map, where a value-decode failure of any single entry is recorded in the
failure map without aborting the remaining entries, every cleanly decoded
entry lands in the success map, and every server-reported failure lands in
the failure map. (A key-decode failure, by contrast, is a terminal error —
see the counterexample.) -/
theorem c2_getAll_amended (entries : List GetAllEntry) (failures : List GetAllFailure)
    (hk : ∀ e ∈ entries, ∃ k, DecodeValue e.key none = .ok k)
    (hf : ∀ f ∈ failures, ∃ k, DecodeValue f.key none = .ok k) :
    ∃ succ failOpt, getAllProcess entries failures = .ok (succ, failOpt) ∧
      (∀ e ∈ entries, ∀ k v, DecodeValue e.key none = .ok k →
          DecodeValue e.value none = .ok v → keyMem succ k = true) ∧
      (∀ e ∈ entries, ∀ k, DecodeValue e.key none = .ok k →
          (∃ m, DecodeValue e.value none = .error m) →
          ∃ fl, failOpt = some fl ∧ keyMem fl k = true) ∧
      (∀ f ∈ failures, ∀ k, DecodeValue f.key none = .ok k →
          ∃ fl, failOpt = some fl ∧ keyMem fl k = true) := by
  obtain ⟨S, F, hrun, hS, hF, hSmem, hFmem⟩ := processEntries_ok entries [] [] hk
  obtain ⟨F2, hrun2, hmono2, hmem2⟩ := processFailures_ok failures F hf
  by_cases hemp : F2.isEmpty = true
  · refine ⟨S, none, ?_, hSmem, ?_, ?_⟩
    · simp only [getAllProcess, hrun, hrun2]
      rw [if_pos hemp]
    · intro e he k hkey hbad
      have h2 := hmono2 k (hFmem e he k hkey hbad)
      rw [keyMem_not_isEmpty h2] at hemp
      cases hemp
    · intro f hfm k hkey
      have h2 := hmem2 f hfm k hkey
      rw [keyMem_not_isEmpty h2] at hemp
      cases hemp
  · refine ⟨S, some F2, ?_, hSmem, ?_, ?_⟩
    · simp only [getAllProcess, hrun, hrun2]
      rw [if_neg hemp]
    · intro e he k hkey hbad
      exact ⟨F2, rfl, hmono2 k (hFmem e he k hkey hbad)⟩
    · intro f hfm k hkey
      exact ⟨F2, rfl, hmem2 f hfm k hkey⟩

/-- C2 (witness): the spec's partial-failure scenario — keys k1, k2, k3
where k2's stored value fails to decode (a JSON-tagged value decoded with
a nil template) — processed without a terminal error. -/
theorem c2_witness :
    ∃ succ failOpt,
      getAllProcess
        [⟨.StringResult "k1", .IntResult 1⟩,
         ⟨.StringResult "k2", .JsonObjectResult "x"⟩,
         ⟨.StringResult "k3", .IntResult 3⟩] [] = .ok (succ, failOpt) ∧
      (∀ e ∈ [GetAllEntry.mk (.StringResult "k1") (.IntResult 1),
              GetAllEntry.mk (.StringResult "k2") (.JsonObjectResult "x"),
              GetAllEntry.mk (.StringResult "k3") (.IntResult 3)],
        ∀ k v, DecodeValue e.key none = .ok k →
          DecodeValue e.value none = .ok v → keyMem succ k = true) ∧
      (∀ e ∈ [GetAllEntry.mk (.StringResult "k1") (.IntResult 1),
              GetAllEntry.mk (.StringResult "k2") (.JsonObjectResult "x"),
              GetAllEntry.mk (.StringResult "k3") (.IntResult 3)],
        ∀ k, DecodeValue e.key none = .ok k →
          (∃ m, DecodeValue e.value none = .error m) →
          ∃ fl, failOpt = some fl ∧ keyMem fl k = true) ∧
      (∀ f ∈ ([] : List GetAllFailure), ∀ k, DecodeValue f.key none = .ok k →
          ∃ fl, failOpt = some fl ∧ keyMem fl k = true) :=
  c2_getAll_amended _ _
    (by
      intro e he
      simp only [List.mem_cons, List.not_mem_nil, or_false] at he
      rcases he with rfl | rfl | rfl <;> exact ⟨_, rfl⟩)
    (by simp)

/-- Go error values as the exchange engine observes them: a
`*net.OpError` (a transport operation error carrying the failing
operation's name in its `Op` field) or any other error carrying only its
message text (`errors.New`, `io.EOF` whose message is "EOF", protobuf
codec errors, ...). -/
inductive GoError where
  | opError (op : String) (msg : String)
  | simpleErr (msg : String)
deriving DecidableEq

/-- The text `Error()` returns: a `net.OpError` formats its operation name
followed by the underlying error; any other error is its message. -/
def GoError.message : GoError → String
  | .opError op msg => op ++ ": " ++ msg
  | .simpleErr msg => msg

/-- The end-of-stream error `io.EOF`, whose message is exactly "EOF". -/
def eofError : GoError := .simpleErr "EOF"

/-- Outcome of one attempted exchange as the engine classifies it:
success, a fatal error (returned as-is), or a `*RetryableError` wrapping
the underlying error (protobuf.go lines 27-33). -/
inductive ExchangeResult (α : Type) where
  | ok (a : α)
  | fatal (e : GoError)
  | retry (e : GoError)
deriving DecidableEq

/-- Environment of `writeMessage`: what the proto encoding step and the
transport `Write` call return for this attempt. -/
inductive WriteEnv where
  | encodeErr (e : GoError)
  | writeErr (e : GoError)
  | written
deriving DecidableEq

/-- Environment of the read side: what `readResponse` produces — a
transport/decode failure, or a decoded response envelope that either
carries an explicit application error (message + numeric code) or a
normal result. -/
inductive ReadOutcome where
  | failed (e : GoError)
  | decoded (isErrorEnvelope : Bool) (msg : String) (code : Int)
deriving DecidableEq

/-- `writeMessage` (protobuf.go lines 531-550): an encode failure is
returned as-is; a failure of `connection.Write` is wrapped as retryable
exactly when it is a `*net.OpError` whose `Op` field equals "write";
every other write failure is returned as-is (fatal). -/
def writeMessage : WriteEnv → ExchangeResult Unit
  | .encodeErr e => .fatal e
  | .writeErr e =>
    match e with
    | .opError op msg => if op = "write" then .retry (.opError op msg) else .fatal e
    | .simpleErr _ => .fatal e
  | .written => .ok ()

/-- `doOperationWithConnection` (protobuf.go lines 506-529): a write
failure keeps `writeMessage`'s classification; a read failure is wrapped
as retryable exactly when its message is "EOF" (the end-of-stream
condition); a decoded error envelope becomes a fatal application error;
otherwise the response is returned. -/
def doOperationWithConnection (wenv : WriteEnv) (renv : ReadOutcome) : ExchangeResult ReadOutcome :=
  match writeMessage wenv with
  | .fatal e => .fatal e
  | .retry e => .retry e
  | .ok _ =>
    match renv with
    | .failed e => if e.message = "EOF" then .retry e else .fatal e
    | .decoded true msg code => .fatal (.simpleErr (msg ++ " (" ++ toString code ++ ")"))
    | .decoded false msg code => .ok (.decoded false msg code)

/-- C3: a write failure is classified retryable exactly when it is a
transport operation error whose failing phase (`Op`) is the write itself;
encode-phase errors are always fatal; a read failure is classified
retryable exactly when it is the end-of-stream condition (its message is
"EOF", as `io.EOF` reports); every other write or read failure is fatal. -/
theorem c3_retry_classification :
    (∀ e renv, (∃ e2, doOperationWithConnection (.writeErr e) renv = .retry e2) ↔
        ∃ m, e = .opError "write" m) ∧
    (∀ e renv, (¬ ∃ m, e = .opError "write" m) →
        doOperationWithConnection (.writeErr e) renv = .fatal e) ∧
    (∀ e renv, doOperationWithConnection (.encodeErr e) renv = .fatal e) ∧
    (∀ e, (∃ e2, doOperationWithConnection .written (.failed e) = .retry e2) ↔
        e.message = "EOF") ∧
    (∀ e, e.message ≠ "EOF" →
        doOperationWithConnection .written (.failed e) = .fatal e) ∧
    (∃ e2, doOperationWithConnection .written (.failed eofError) = .retry e2) := by
  refine ⟨?_, ?_, ?_, ?_, ?_, ?_⟩
  · intro e renv
    constructor
    · rintro ⟨e2, h2⟩
      cases e with
      | opError op msg =>
        by_cases hop : op = "write"
        · exact ⟨msg, by rw [hop]⟩
        · simp [doOperationWithConnection, writeMessage, hop] at h2
      | simpleErr msg => simp [doOperationWithConnection, writeMessage] at h2
    · rintro ⟨m, rfl⟩
      exact ⟨.opError "write" m, by simp [doOperationWithConnection, writeMessage]⟩
  · intro e renv hne
    cases e with
    | opError op msg =>
      have hop : op ≠ "write" := fun h => hne ⟨msg, by rw [h]⟩
      simp [doOperationWithConnection, writeMessage, hop]
    | simpleErr msg => simp [doOperationWithConnection, writeMessage]
  · intro e renv
    rfl
  · intro e
    constructor
    · rintro ⟨e2, h2⟩
      by_cases hm : e.message = "EOF"
      · exact hm
      · simp [doOperationWithConnection, writeMessage, hm] at h2
    · intro hm
      exact ⟨e, by simp [doOperationWithConnection, writeMessage, hm]⟩
  · intro e hm
    simp [doOperationWithConnection, writeMessage, hm]
  · exact ⟨eofError, by simp [doOperationWithConnection, writeMessage, eofError, GoError.message]⟩

/-- C3 (witness): a mid-write failure (peer closed the connection) is
retried; an unrelated dial-phase operation error is fatal. -/
theorem c3_witness :
    doOperationWithConnection (.writeErr (.opError "dial" "refused")) (.decoded false "" 0) =
      .fatal (.opError "dial" "refused") :=
  c3_retry_classification.2.1 (.opError "dial" "refused") (.decoded false "" 0)
    (by rintro ⟨m, h⟩; injection h with h1 h2; exact absurd h1 (by decide))

/-- A pooled connection (the `GeodeConnection` struct wrapping a raw
transport, pool.go lines 39-48). `id` models pointer identity; theorems
that need distinct objects assume distinct ids. `handshakeFails` and
`authFails` are the environment: the outcome the handshake respectively
authentication I/O would produce if actually performed on this connection
(`none` = success, `some msg` = failure with that message). -/
structure GeodeConnection where
  id : Nat
  handshakeDone : Bool
  authenticationDone : Bool
  inUse : Bool
  handshakeFails : Option String
  authFails : Option String
deriving DecidableEq

/-- Modelled from the spec: `GeodeConnection.handshake` is code of this
repository that is not under src/ (only its caller pool.go is). Per the
spec it is "idempotent — no-ops if already completed for pre-established
connections", records completion on success, and propagates its error on
failure. -/
def handshake (c : GeodeConnection) : Except String GeodeConnection :=
  if c.handshakeDone then .ok c
  else
    match c.handshakeFails with
    | some msg => .error msg
    | none => .ok { c with handshakeDone := true }

/-- Modelled from the spec: `GeodeConnection.authenticate` is code of this
repository that is not under src/. Per the spec it authenticates with the
stored pool credentials, is "idempotent per connection", and propagates
its failure. -/
def authenticate (c : GeodeConnection) (username password : String) :
    Except String GeodeConnection :=
  if c.authenticationDone then .ok c
  else
    match c.authFails with
    | some msg => .error msg
    | none => .ok { c with authenticationDone := true }

/-- A connection provider (pool.go lines 20-22): for the single
`GetGeodeConnection` call that one `GetConnection` invocation makes to
it, it yields either a connection or nothing. -/
structure ConnectionProvider where
  yield : Option GeodeConnection
deriving DecidableEq

/-- The `Pool` struct (pool.go lines 24-31), minus the embedded lock
(modelled separately as an event trace for the locking claim). -/
structure Pool where
  recentConnections : List GeodeConnection
  providers : List ConnectionProvider
  authenticationEnabled : Bool
  username : String
  password : String
deriving DecidableEq

/-- The process-wide expvar counters (pool.go lines 10-12). -/
structure Metrics where
  activeConnections : Int
  connectionsCreated : Int
  discardedConnections : Int
deriving DecidableEq

/-- Pool state, metrics, and the identities of connections whose raw
transport has been closed (`rawConn.Close`), making closure observable. -/
structure World where
  pool : Pool
  metrics : Metrics
  closed : List Nat
deriving DecidableEq

/-- Reflects a mutation of the Go object `c` points to into the
membership list: replace the entry with the same identity. -/
def updateConn (l : List GeodeConnection) (c : GeodeConnection) : List GeodeConnection :=
  l.map (fun x => if x.id = c.id then c else x)

/-- Removal by pointer identity, first match only (the loop with `break`
in pool.go lines 124-129). -/
def removeConn : List GeodeConnection → Nat → List GeodeConnection
  | [], _ => []
  | c :: rest, i => if c.id = i then rest else c :: removeConn rest i

/-- The private `Pool.discardConnection` (pool.go lines 122-132): remove
the connection from membership and close its transport; the close error
is ignored and no metric is touched. -/
def discardConnection (w : World) (c : GeodeConnection) : World :=
  { w with
    pool := { w.pool with recentConnections := removeConn w.pool.recentConnections c.id },
    closed := c.id :: w.closed }

/-- The public `Pool.DiscardConnection` (pool.go lines 134-141): discard
under the lock, then increment the discarded-count metric. -/
def DiscardConnection (w : World) (c : GeodeConnection) : World :=
  let w2 := discardConnection w c
  { w2 with metrics :=
      { w2.metrics with discardedConnections := w2.metrics.discardedConnections + 1 } }

/-- `Pool.ReturnConnection` (pool.go lines 114-120): clear the in-use
flag on the object `gConn` points to (visible through membership only
while the object is still a member) and decrement the active-count
metric. -/
def ReturnConnection (w : World) (c : GeodeConnection) : World :=
  let rc := w.pool.recentConnections.map
    (fun x => if x.id = c.id then { x with inUse := false } else x)
  { w with
    pool := { w.pool with recentConnections := rc },
    metrics := { w.metrics with activeConnections := w.metrics.activeConnections - 1 } }

/-- `Pool.AddConnection` (pool.go lines 39-48): wrap a pre-established
transport and append it to membership; authenticationDone and inUse start
false; no counter is touched. -/
def AddConnection (w : World) (id : Nat) (handshakeDone : Bool)
    (handshakeFails authFails : Option String) : World :=
  { w with pool := { w.pool with recentConnections :=
      w.pool.recentConnections ++
        [{ id := id, handshakeDone := handshakeDone, authenticationDone := false,
           inUse := false, handshakeFails := handshakeFails, authFails := authFails }] } }

/-- `Pool.AddCredentials` (pool.go lines 143-147): store the credentials
and enable per-acquisition authentication. -/
def AddCredentials (w : World) (username password : String) : World :=
  { w with pool := { w.pool with
      username := username, password := password, authenticationEnabled := true } }

/-- The idle scan of `GetConnection` (pool.go lines 69-73): range over all
recent connections, remembering the latest idle one seen. -/
def scanIdle (l : List GeodeConnection) : Option GeodeConnection :=
  l.foldl (fun acc c => if !c.inUse then some c else acc) none

/-- The provider walk of `GetConnection` (pool.go lines 76-82), stated on
the reversed provider list (the loop runs from the most recently added
provider backwards): drop every provider that yields nothing until one
yields a connection, keeping the rest. -/
def walkProvidersRev : List ConnectionProvider → Option GeodeConnection × List ConnectionProvider
  | [] => (none, [])
  | p :: rest =>
    match p.yield with
    | some c => (some c, p :: rest)
    | none => walkProvidersRev rest

/-- The provider walk in original list order. -/
def walkProviders (ps : List ConnectionProvider) :
    Option GeodeConnection × List ConnectionProvider :=
  let r := walkProvidersRev ps.reverse
  (r.1, r.2.reverse)

/-- Steps 1-4 of `GetConnection` (pool.go lines 68-92): prefer an idle
recent connection; otherwise walk the providers, removing exhausted ones;
a provider-created connection is appended to membership and counted in
connectionsCreated. -/
def selectPhase (w : World) : Option GeodeConnection × World :=
  match scanIdle w.pool.recentConnections with
  | some g => (some g, w)
  | none =>
    let r := walkProviders w.pool.providers
    match r.1 with
    | some g =>
      let p2 := { w.pool with providers := r.2, recentConnections := w.pool.recentConnections ++ [g] }
      let m2 := { w.metrics with connectionsCreated := w.metrics.connectionsCreated + 1 }
      (some g, { w with pool := p2, metrics := m2 })
    | none => (none, { w with pool := { w.pool with providers := r.2 } })

/-- Steps 5-7 of `GetConnection` (pool.go lines 94-111): handshake, then
(when enabled) authentication — discarding the connection and propagating
the error on failure — then mark in-use and increment the active count. -/
def getConnFinish (w : World) (g : GeodeConnection) :
    Except String GeodeConnection × World :=
  match handshake g with
  | .error e => (.error e, discardConnection w g)
  | .ok g1 =>
    let w1 := { w with pool :=
      { w.pool with recentConnections := updateConn w.pool.recentConnections g1 } }
    if w1.pool.authenticationEnabled then
      match authenticate g1 w1.pool.username w1.pool.password with
      | .error e => (.error e, discardConnection w1 g1)
      | .ok g2 =>
        let g3 := { g2 with inUse := true }
        let p2 := { w1.pool with recentConnections := updateConn w1.pool.recentConnections g3 }
        let m2 := { w1.metrics with activeConnections := w1.metrics.activeConnections + 1 }
        (.ok g3, { w1 with pool := p2, metrics := m2 })
    else
      let g3 := { g1 with inUse := true }
      let p2 := { w1.pool with recentConnections := updateConn w1.pool.recentConnections g3 }
      let m2 := { w1.metrics with activeConnections := w1.metrics.activeConnections + 1 }
      (.ok g3, { w1 with pool := p2, metrics := m2 })

/-- `Pool.GetConnection` (pool.go lines 61-112). -/
def GetConnection (w : World) : Except String GeodeConnection × World :=
  match selectPhase w with
  | (some g, w1) => getConnFinish w1 g
  | (none, w1) => (.error "no connections available", w1)

/-- `find?` over an append takes the first part's hit first. -/
theorem find?_append_or (l1 l2 : List GeodeConnection) (p : GeodeConnection → Bool) :
    (l1 ++ l2).find? p = ((l1.find? p).or (l2.find? p)) := by
  induction l1 with
  | nil => simp [Option.or]
  | cons c rest ih =>
    by_cases hc : p c = true
    · simp [List.find?, hc, Option.or]
    · simp only [List.cons_append, List.find?]
      rw [Bool.not_eq_true] at hc
      rw [hc]
      simp only [cond_false]
      exact ih

/-- The idle scan picks the last idle connection in scan order: it equals
the first idle connection of the reversed list. -/
theorem scanIdle_spec (l : List GeodeConnection) :
    scanIdle l = l.reverse.find? (fun c => !c.inUse) := by
  suffices h : ∀ acc : Option GeodeConnection,
      l.foldl (fun acc c => if !c.inUse then some c else acc) acc =
        (l.reverse.find? (fun c => !c.inUse)).or acc by
    have h2 := h none
    rw [scanIdle, h2]
    cases l.reverse.find? (fun c => !c.inUse) <;> simp [Option.or]
  induction l with
  | nil => intro acc; simp [Option.or]
  | cons c rest ih =>
    intro acc
    simp only [List.foldl_cons, List.reverse_cons]
    rw [ih, find?_append_or]
    cases hr : rest.reverse.find? (fun c => !c.inUse) with
    | some x => simp [Option.or]
    | none =>
      by_cases hc : c.inUse = true
      · simp [List.find?, hc, Option.or]
      · rw [Bool.not_eq_true] at hc
        simp [List.find?, hc, Option.or]

/-- When every provider yields nothing, the walk consumes them all. -/
theorem walkProvidersRev_exhausted (l : List ConnectionProvider)
    (h : ∀ p ∈ l, p.yield = none) : walkProvidersRev l = (none, []) := by
  induction l with
  | nil => rfl
  | cons p rest ih =>
    rw [walkProvidersRev, h p (by simp)]
    exact ih (fun q hq => h q (by simp [hq]))

/-- C4: a Pool with no idle recent connection and only providers that
yield nothing fails `GetConnection` with the ConnectionUnavailable error
("no connections available"), and afterwards every exhausted provider has
been removed — the provider list is empty — while membership and the
metrics are untouched. -/
theorem c4_exhaustion (w : World)
    (hbusy : ∀ c ∈ w.pool.recentConnections, c.inUse = true)
    (hexh : ∀ p ∈ w.pool.providers, p.yield = none) :
    (GetConnection w).1 = .error "no connections available" ∧
    (GetConnection w).2.pool.providers = [] ∧
    (GetConnection w).2.pool.recentConnections = w.pool.recentConnections ∧
    (GetConnection w).2.metrics = w.metrics := by
  have hscan : scanIdle w.pool.recentConnections = none := by
    rw [scanIdle_spec]
    rw [List.find?_eq_none]
    intro c hc
    simp [hbusy c (List.mem_reverse.mp hc)]
  have hwalk : walkProviders w.pool.providers = (none, []) := by
    rw [walkProviders, walkProvidersRev_exhausted]
    · simp
    · intro p hp
      exact hexh p (List.mem_reverse.mp hp)
  simp [GetConnection, selectPhase, hscan, hwalk]

/-- C4 (witness): a pool holding one busy connection and one exhausted
provider. -/
theorem c4_witness :
    (GetConnection ⟨⟨[⟨1, true, false, true, none, none⟩], [⟨none⟩], false, "u", "p"⟩,
        ⟨0, 0, 0⟩, []⟩).1 = .error "no connections available" ∧
    (GetConnection ⟨⟨[⟨1, true, false, true, none, none⟩], [⟨none⟩], false, "u", "p"⟩,
        ⟨0, 0, 0⟩, []⟩).2.pool.providers = [] ∧
    (GetConnection ⟨⟨[⟨1, true, false, true, none, none⟩], [⟨none⟩], false, "u", "p"⟩,
        ⟨0, 0, 0⟩, []⟩).2.pool.recentConnections = [⟨1, true, false, true, none, none⟩] ∧
    (GetConnection ⟨⟨[⟨1, true, false, true, none, none⟩], [⟨none⟩], false, "u", "p"⟩,
        ⟨0, 0, 0⟩, []⟩).2.metrics = ⟨0, 0, 0⟩ :=
  c4_exhaustion _ (by decide) (by decide)

/-- A successful handshake never changes the connection's identity. -/
theorem handshake_ok_id {c c2 : GeodeConnection} (h : handshake c = .ok c2) :
    c2.id = c.id := by
  unfold handshake at h
  by_cases hd : c.handshakeDone = true
  · rw [if_pos hd] at h
    injection h with h
    rw [← h]
  · rw [if_neg hd] at h
    cases hf : c.handshakeFails with
    | some m => rw [hf] at h; cases h
    | none => rw [hf] at h; injection h with h; rw [← h]

/-- Successful authentication never changes the connection's identity. -/
theorem authenticate_ok_id {c c2 : GeodeConnection} {u p : String}
    (h : authenticate c u p = .ok c2) : c2.id = c.id := by
  unfold authenticate at h
  by_cases hd : c.authenticationDone = true
  · rw [if_pos hd] at h
    injection h with h
    rw [← h]
  · rw [if_neg hd] at h
    cases hf : c.authFails with
    | some m => rw [hf] at h; cases h
    | none => rw [hf] at h; injection h with h; rw [← h]

/-- The handshake/authentication phase never touches the provider list or
the created-connections counter, and a returned connection keeps the
identity of the selected one. -/
theorem getConnFinish_frame (w : World) (g : GeodeConnection) :
    (getConnFinish w g).2.pool.providers = w.pool.providers ∧
    (getConnFinish w g).2.metrics.connectionsCreated = w.metrics.connectionsCreated ∧
    ∀ g2, (getConnFinish w g).1 = .ok g2 → g2.id = g.id := by
  cases hh : handshake g with
  | error e => simp [getConnFinish, hh, discardConnection]
  | ok g1 =>
    have hid1 := handshake_ok_id hh
    by_cases ha : w.pool.authenticationEnabled = true
    · cases hau : authenticate g1 w.pool.username w.pool.password with
      | error e => simp [getConnFinish, hh, ha, hau, discardConnection]
      | ok g2 =>
        have hid2 := authenticate_ok_id hau
        simp only [getConnFinish, hh, ha, hau, if_true]
        refine ⟨by trivial, by trivial, ?_⟩
        intro g3 h3
        injection h3 with h3
        rw [← h3]
        simp [hid2, hid1]
    · simp only [getConnFinish, hh]
      rw [if_neg ha]
      refine ⟨rfl, rfl, ?_⟩
      intro g3 h3
      injection h3 with h3
      rw [← h3]
      simp [hid1]

/-- C6: when the recent-connections collection holds at least one idle
connection, `GetConnection` consults no provider (the provider list is
unchanged), does not increment the created-connections counter, and the
connection it returns (when setup succeeds) is exactly the last idle
connection in scan order — the first idle one of the reversed list. -/
theorem c6_idle_selection (w : World)
    (hidle : w.pool.recentConnections.reverse.find? (fun c => !c.inUse) ≠ none) :
    (GetConnection w).2.pool.providers = w.pool.providers ∧
    (GetConnection w).2.metrics.connectionsCreated = w.metrics.connectionsCreated ∧
    ∀ g, (GetConnection w).1 = .ok g →
      ∃ g0, w.pool.recentConnections.reverse.find? (fun c => !c.inUse) = some g0 ∧
        g.id = g0.id ∧ g0.inUse = false := by
  cases hg0 : w.pool.recentConnections.reverse.find? (fun c => !c.inUse) with
  | none => exact absurd hg0 hidle
  | some g0 =>
    have hscan : scanIdle w.pool.recentConnections = some g0 := by
      rw [scanIdle_spec, hg0]
    have hGC : GetConnection w = getConnFinish w g0 := by
      simp [GetConnection, selectPhase, hscan]
    obtain ⟨hp, hc, hid⟩ := getConnFinish_frame w g0
    rw [hGC]
    refine ⟨hp, hc, ?_⟩
    intro g hok
    refine ⟨g0, rfl, hid g hok, ?_⟩
    have := List.find?_some hg0
    simpa using this

/-- C6 (witness): two idle connections; the scan is deterministic and the
later one (id 2) is selected. -/
theorem c6_witness :
    (GetConnection ⟨⟨[⟨1, true, false, false, none, none⟩, ⟨2, true, false, false, none, none⟩],
        [⟨some ⟨3, false, false, false, none, none⟩⟩], false, "u", "p"⟩, ⟨0, 0, 0⟩, []⟩).2.pool.providers =
      [⟨some ⟨3, false, false, false, none, none⟩⟩] ∧
    (GetConnection ⟨⟨[⟨1, true, false, false, none, none⟩, ⟨2, true, false, false, none, none⟩],
        [⟨some ⟨3, false, false, false, none, none⟩⟩], false, "u", "p"⟩, ⟨0, 0, 0⟩, []⟩).2.metrics.connectionsCreated = 0 ∧
    ∀ g, (GetConnection ⟨⟨[⟨1, true, false, false, none, none⟩, ⟨2, true, false, false, none, none⟩],
        [⟨some ⟨3, false, false, false, none, none⟩⟩], false, "u", "p"⟩, ⟨0, 0, 0⟩, []⟩).1 = .ok g →
      ∃ g0, ([⟨1, true, false, false, none, none⟩, ⟨2, true, false, false, none, none⟩] :
          List GeodeConnection).reverse.find? (fun c => !c.inUse) = some g0 ∧
        g.id = g0.id ∧ g0.inUse = false :=
  c6_idle_selection _ (by decide)

/-- The selection phase never touches the active-count or discarded-count
metrics (it only ever bumps connectionsCreated). -/
theorem selectPhase_metrics (w : World) :
    (selectPhase w).2.metrics.activeConnections = w.metrics.activeConnections ∧
    (selectPhase w).2.metrics.discardedConnections = w.metrics.discardedConnections := by
  unfold selectPhase
  cases hs : scanIdle w.pool.recentConnections with
  | some g => simp
  | none =>
    cases hw : (walkProviders w.pool.providers).1 with
    | some g => simp [hw]
    | none => simp [hw]

/-- Removing a connection by identity removes it for good when membership
identities are distinct. -/
theorem removeConn_not_mem (l : List GeodeConnection) (i : Nat)
    (h : (l.map (fun c => c.id)).Nodup) :
    i ∉ (removeConn l i).map (fun c => c.id) := by
  induction l with
  | nil => simp [removeConn]
  | cons c rest ih =>
    simp only [List.map_cons, List.nodup_cons] at h
    by_cases hc : c.id = i
    · rw [removeConn, if_pos hc]
      rw [← hc]
      exact h.1
    · rw [removeConn, if_neg hc]
      simp only [List.map_cons, List.mem_cons]
      rintro (h1 | h2)
      · exact hc h1.symm
      · exact ih h.2 h2

/-- Reflecting an object mutation leaves the membership identities
unchanged. -/
theorem updateConn_map_id (l : List GeodeConnection) (c : GeodeConnection) :
    (updateConn l c).map (fun x => x.id) = l.map (fun x => x.id) := by
  induction l with
  | nil => rfl
  | cons x rest ih =>
    by_cases hx : x.id = c.id
    · rw [show updateConn (x :: rest) c = c :: updateConn rest c from by simp [updateConn, hx]]
      simp only [List.map_cons, ih]
      rw [hx]
    · rw [show updateConn (x :: rest) c = x :: updateConn rest c from by simp [updateConn, hx]]
      simp only [List.map_cons, ih]

/-- C5: if the handshake of the selected connection fails, or pool-wide
authentication is enabled and authentication fails, then `GetConnection`
propagates that error without retrying another connection, the selected
connection is removed from membership, its transport is closed, and the
active-connections metric is not incremented (the connection is never
marked in-use: it is no longer a member at all). -/
theorem c5_setup_failure (w : World) (g : GeodeConnection) (w1 : World) (e : String)
    (hsel : selectPhase w = (some g, w1))
    (hnodup : (w1.pool.recentConnections.map (fun c => c.id)).Nodup)
    (hfail : handshake g = .error e ∨
      (∃ g1, handshake g = .ok g1 ∧ w1.pool.authenticationEnabled = true ∧
        authenticate g1 w1.pool.username w1.pool.password = .error e)) :
    (GetConnection w).1 = .error e ∧
    g.id ∈ (GetConnection w).2.closed ∧
    g.id ∉ ((GetConnection w).2.pool.recentConnections.map (fun c => c.id)) ∧
    (GetConnection w).2.metrics.activeConnections = w.metrics.activeConnections := by
  have hGC : GetConnection w = getConnFinish w1 g := by
    simp [GetConnection, hsel]
  have hact : w1.metrics.activeConnections = w.metrics.activeConnections := by
    have h2 := (selectPhase_metrics w).1
    rw [hsel] at h2
    exact h2
  rcases hfail with hh | ⟨g1, hh, hae, hau⟩
  · rw [hGC]
    simp only [getConnFinish, hh]
    exact ⟨by trivial, by simp [discardConnection],
      by simp only [discardConnection]; exact removeConn_not_mem _ _ hnodup,
      by simp [discardConnection, hact]⟩
  · rw [hGC]
    have hid1 : g1.id = g.id := handshake_ok_id hh
    simp only [getConnFinish, hh, hae, if_true, hau]
    refine ⟨by trivial, by simp [discardConnection, hid1], ?_, by simp [discardConnection, hact]⟩
    simp only [discardConnection]
    rw [← hid1]
    apply removeConn_not_mem
    rw [updateConn_map_id]
    exact hnodup

/-- C5 (witness): a pool whose single idle connection fails its handshake. -/
theorem c5_witness :
    (GetConnection ⟨⟨[⟨7, false, false, false, some "handshake failed", none⟩], [], false, "u", "p"⟩,
        ⟨5, 2, 3⟩, []⟩).1 = .error "handshake failed" ∧
    7 ∈ (GetConnection ⟨⟨[⟨7, false, false, false, some "handshake failed", none⟩], [], false, "u", "p"⟩,
        ⟨5, 2, 3⟩, []⟩).2.closed ∧
    7 ∉ ((GetConnection ⟨⟨[⟨7, false, false, false, some "handshake failed", none⟩], [], false, "u", "p"⟩,
        ⟨5, 2, 3⟩, []⟩).2.pool.recentConnections.map (fun c => c.id)) ∧
    (GetConnection ⟨⟨[⟨7, false, false, false, some "handshake failed", none⟩], [], false, "u", "p"⟩,
        ⟨5, 2, 3⟩, []⟩).2.metrics.activeConnections = 5 :=
  c5_setup_failure _ ⟨7, false, false, false, some "handshake failed", none⟩ _ "handshake failed"
    rfl (by decide) (Or.inl rfl)

/-- C10: a connection discarded inside `GetConnection` because of a
handshake or authentication failure goes through the private
`discardConnection` — its transport is closed and the error propagates —
but the cumulative discarded-connections metric stays unchanged; only the
public `DiscardConnection` increments that metric (by exactly one, on
every call). -/
theorem c10_discard_metric (w : World) (g : GeodeConnection) (w1 : World) (e : String)
    (hsel : selectPhase w = (some g, w1))
    (hfail : handshake g = .error e ∨
      (∃ g1, handshake g = .ok g1 ∧ w1.pool.authenticationEnabled = true ∧
        authenticate g1 w1.pool.username w1.pool.password = .error e)) :
    (GetConnection w).1 = .error e ∧
    g.id ∈ (GetConnection w).2.closed ∧
    (GetConnection w).2.metrics.discardedConnections = w.metrics.discardedConnections ∧
    (∀ w2 c2, (DiscardConnection w2 c2).metrics.discardedConnections =
      w2.metrics.discardedConnections + 1) := by
  have hGC : GetConnection w = getConnFinish w1 g := by
    simp [GetConnection, hsel]
  have hdisc : w1.metrics.discardedConnections = w.metrics.discardedConnections := by
    have h2 := (selectPhase_metrics w).2
    rw [hsel] at h2
    exact h2
  have hpub : ∀ w2 c2, (DiscardConnection w2 c2).metrics.discardedConnections =
      w2.metrics.discardedConnections + 1 := by
    intro w2 c2
    simp [DiscardConnection, discardConnection]
  rcases hfail with hh | ⟨g1, hh, hae, hau⟩
  · rw [hGC]
    simp only [getConnFinish, hh]
    exact ⟨by trivial, by simp [discardConnection], by simp [discardConnection, hdisc], hpub⟩
  · rw [hGC]
    have hid1 : g1.id = g.id := handshake_ok_id hh
    simp only [getConnFinish, hh, hae, if_true, hau]
    exact ⟨by trivial, by simp [discardConnection, hid1], by simp [discardConnection, hdisc], hpub⟩

/-- C10 (witness): a pool whose single idle connection fails
authentication (authentication enabled); the discarded-count metric stays
at 1, while a public discard on a fresh world increments it. -/
theorem c10_witness :
    (GetConnection ⟨⟨[⟨9, true, false, false, none, some "auth failed"⟩], [], true, "u", "p"⟩,
        ⟨1, 1, 1⟩, []⟩).1 = .error "auth failed" ∧
    9 ∈ (GetConnection ⟨⟨[⟨9, true, false, false, none, some "auth failed"⟩], [], true, "u", "p"⟩,
        ⟨1, 1, 1⟩, []⟩).2.closed ∧
    (GetConnection ⟨⟨[⟨9, true, false, false, none, some "auth failed"⟩], [], true, "u", "p"⟩,
        ⟨1, 1, 1⟩, []⟩).2.metrics.discardedConnections = 1 ∧
    (∀ w2 c2, (DiscardConnection w2 c2).metrics.discardedConnections =
      w2.metrics.discardedConnections + 1) :=
  c10_discard_metric _ ⟨9, true, false, false, none, some "auth failed"⟩ _ "auth failed"
    rfl (Or.inr ⟨⟨9, true, false, false, none, some "auth failed"⟩, rfl, rfl, rfl⟩)

/-- `GetConnection` increments the active-connections metric by exactly
one on success and leaves it unchanged on failure. -/
theorem getConnection_active (w : World) :
    ((∃ g, (GetConnection w).1 = .ok g) →
      (GetConnection w).2.metrics.activeConnections = w.metrics.activeConnections + 1) ∧
    ((∃ e, (GetConnection w).1 = .error e) →
      (GetConnection w).2.metrics.activeConnections = w.metrics.activeConnections) := by
  rcases hsel : selectPhase w with ⟨og, w1⟩
  have hact : w1.metrics.activeConnections = w.metrics.activeConnections := by
    have h2 := (selectPhase_metrics w).1
    rw [hsel] at h2
    exact h2
  cases og with
  | none =>
    constructor
    · rintro ⟨g, hg⟩
      simp [GetConnection, hsel] at hg
    · rintro ⟨e, he⟩
      simp [GetConnection, hsel, hact]
  | some g0 =>
    cases hh : handshake g0 with
    | error e =>
      constructor
      · rintro ⟨g, hg⟩
        simp [GetConnection, hsel, getConnFinish, hh] at hg
      · rintro ⟨e2, he2⟩
        simp [GetConnection, hsel, getConnFinish, hh, discardConnection, hact]
    | ok g1 =>
      by_cases ha : w1.pool.authenticationEnabled = true
      · cases hau : authenticate g1 w1.pool.username w1.pool.password with
        | error e =>
          constructor
          · rintro ⟨g, hg⟩
            simp [GetConnection, hsel, getConnFinish, hh, ha, hau] at hg
          · rintro ⟨e2, he2⟩
            simp [GetConnection, hsel, getConnFinish, hh, ha, hau, discardConnection, hact]
        | ok g2 =>
          constructor
          · rintro ⟨g, hg⟩
            simp [GetConnection, hsel, getConnFinish, hh, ha, hau, hact]
          · rintro ⟨e2, he2⟩
            simp [GetConnection, hsel, getConnFinish, hh, ha, hau] at he2
      · constructor
        · rintro ⟨g, hg⟩
          simp [GetConnection, hsel, getConnFinish, hh, ha, hact]
        · rintro ⟨e2, he2⟩
          simp [GetConnection, hsel, getConnFinish, hh, ha] at he2

/-- One pool bookkeeping call made by `doOperation`: a successful
`GetConnection`, a `ReturnConnection`, or a `DiscardConnection`, each
carrying the identity of the connection involved. -/
inductive PoolCall where
  | got (id : Nat)
  | returned (id : Nat)
  | discarded (id : Nat)
deriving DecidableEq

/-- How many times a call appears in a trace. -/
def countCall : List PoolCall → PoolCall → Nat
  | [], _ => 0
  | x :: r, c => (if x = c then 1 else 0) + countCall r c

/-- Counting distributes over trace concatenation. -/
theorem countCall_append (a b : List PoolCall) (c : PoolCall) :
    countCall (a ++ b) c = countCall a c + countCall b c := by
  induction a with
  | nil => simp [countCall]
  | cons x r ih => simp [countCall, ih, Nat.add_assoc]

/-- Outcome of `doOperationWithConnection` for one attempt, supplied by
the environment (the transport): success, a fatal error, or a retryable
error. -/
inductive AttemptOutcome where
  | success
  | fatalErr (msg : String)
  | retryableErr (msg : String)
deriving DecidableEq

/-- `Protobuf.doOperation` (protobuf.go lines 485-504). The deferred
`ReturnConnection` runs when each invocation returns: after the recursive
retry completes, and also on the error paths where `DiscardConnection`
was already called for the same connection. Go's retry recursion is
unbounded; `fuel` cuts the model off after finitely many retries (the
cut-off path still runs the deferred return). `env k` is the exchange
outcome of attempt number `k`. Besides the result and final world, the
model emits the trace of pool calls made. The zero-fuel and positive-fuel
bodies differ only in the retryable branch (cut off vs recurse). -/
def doOperationM : Nat → (Nat → AttemptOutcome) → Nat → World →
    Except String Unit × World × List PoolCall
  | 0, env, k, w =>
    match GetConnection w with
    | (.error e, w1) => (.error e, w1, [])
    | (.ok g, w1) =>
      match env k with
      | .success => (.ok (), ReturnConnection w1 g, [.got g.id, .returned g.id])
      | .fatalErr m =>
        (.error m, ReturnConnection (DiscardConnection w1 g) g,
          [.got g.id, .discarded g.id, .returned g.id])
      | .retryableErr m =>
        (.error m, ReturnConnection (DiscardConnection w1 g) g,
          [.got g.id, .discarded g.id, .returned g.id])
  | fuel2 + 1, env, k, w =>
    match GetConnection w with
    | (.error e, w1) => (.error e, w1, [])
    | (.ok g, w1) =>
      match env k with
      | .success => (.ok (), ReturnConnection w1 g, [.got g.id, .returned g.id])
      | .fatalErr m =>
        (.error m, ReturnConnection (DiscardConnection w1 g) g,
          [.got g.id, .discarded g.id, .returned g.id])
      | .retryableErr m =>
        let r := doOperationM fuel2 env (k + 1) (DiscardConnection w1 g)
        (r.1, ReturnConnection r.2.1 g, [.got g.id, .discarded g.id] ++ r.2.2 ++ [.returned g.id])

/-- C9: every `doOperation` invocation that successfully obtains a
connection invokes `ReturnConnection` on it when the invocation completes
— on the success path, on the fatal path where `DiscardConnection` was
already invoked for the same connection, and around the recursive retry —
so every trace returns each connection identity exactly as often as it
got it, and the active-connections metric ends where it started: each
acquisition's increment is undone by the matching deferred return, also
for discarded connections. -/
theorem c9_deferred_return (fuel : Nat) :
    ∀ env k w,
      (∀ i, countCall (doOperationM fuel env k w).2.2 (.returned i) =
        countCall (doOperationM fuel env k w).2.2 (.got i)) ∧
      (doOperationM fuel env k w).2.1.metrics.activeConnections =
        w.metrics.activeConnections := by
  induction fuel with
  | zero =>
    intro env k w
    rcases hgc : GetConnection w with ⟨res, w1⟩
    cases res with
    | error e =>
      have hm := (getConnection_active w).2 ⟨e, by rw [hgc]⟩
      rw [hgc] at hm
      have hm2 : w1.metrics.activeConnections = w.metrics.activeConnections := hm
      constructor
      · intro i
        simp [doOperationM, hgc, countCall]
      · simp only [doOperationM, hgc]
        exact hm2
    | ok g =>
      have hm := (getConnection_active w).1 ⟨g, by rw [hgc]⟩
      rw [hgc] at hm
      have hm2 : w1.metrics.activeConnections = w.metrics.activeConnections + 1 := hm
      cases he : env k with
      | success =>
        constructor
        · intro i
          simp only [doOperationM, hgc, he]
          by_cases h : g.id = i <;> simp [countCall, h]
        · simp only [doOperationM, hgc, he, ReturnConnection]
          omega
      | fatalErr m =>
        constructor
        · intro i
          simp only [doOperationM, hgc, he]
          by_cases h : g.id = i <;> simp [countCall, h]
        · simp only [doOperationM, hgc, he, ReturnConnection, DiscardConnection,
            discardConnection]
          omega
      | retryableErr m =>
        constructor
        · intro i
          simp only [doOperationM, hgc, he]
          by_cases h : g.id = i <;> simp [countCall, h]
        · simp only [doOperationM, hgc, he, ReturnConnection, DiscardConnection,
            discardConnection]
          omega
  | succ fuel2 ih =>
    intro env k w
    rcases hgc : GetConnection w with ⟨res, w1⟩
    cases res with
    | error e =>
      have hm := (getConnection_active w).2 ⟨e, by rw [hgc]⟩
      rw [hgc] at hm
      have hm2 : w1.metrics.activeConnections = w.metrics.activeConnections := hm
      constructor
      · intro i
        simp [doOperationM, hgc, countCall]
      · simp only [doOperationM, hgc]
        exact hm2
    | ok g =>
      have hm := (getConnection_active w).1 ⟨g, by rw [hgc]⟩
      rw [hgc] at hm
      have hm2 : w1.metrics.activeConnections = w.metrics.activeConnections + 1 := hm
      cases he : env k with
      | success =>
        constructor
        · intro i
          simp only [doOperationM, hgc, he]
          by_cases h : g.id = i <;> simp [countCall, h]
        · simp only [doOperationM, hgc, he, ReturnConnection]
          omega
      | fatalErr m =>
        constructor
        · intro i
          simp only [doOperationM, hgc, he]
          by_cases h : g.id = i <;> simp [countCall, h]
        · simp only [doOperationM, hgc, he, ReturnConnection, DiscardConnection,
            discardConnection]
          omega
      | retryableErr m =>
        obtain ⟨ihc, ihm⟩ := ih env (k + 1) (DiscardConnection w1 g)
        have h3 : (DiscardConnection w1 g).metrics.activeConnections =
            w1.metrics.activeConnections := by
          simp [DiscardConnection, discardConnection]
        constructor
        · intro i
          simp only [doOperationM, hgc, he]
          by_cases h : g.id = i
          · simp [countCall_append, countCall, h, ihc i]
            try omega
          · simp [countCall_append, countCall, h, ihc i]
            try omega
        · simp only [doOperationM, hgc, he, ReturnConnection]
          rw [ihm, h3]
          omega

/-- Lock, unlock, and scoped-field mutation events of one Pool method, in
program order. Only mutations of the state the locking claim scopes are
recorded: the membership collection, the provider list, the credential
fields (and enable flag), and a connection's in-use flag. The expvar
counters are process-level atomics outside that scope (pool.go lines
10-12). -/
inductive PoolEvent where
  | lock
  | unlock
  | mutate (field : String)
deriving DecidableEq

/-- Events of `Pool.AddConnection` (pool.go lines 39-48): appends to the
membership slice without taking the pool lock. -/
def addConnectionEvents : List PoolEvent := [.mutate "recentConnections"]

/-- Events of `Pool.AddServer` (pool.go lines 54-59): appends to the
provider slice without taking the pool lock. -/
def addServerEvents : List PoolEvent := [.mutate "providers"]

/-- Events of `Pool.AddCredentials` (pool.go lines 143-147): writes the
credential fields and the enable flag without taking the pool lock. -/
def addCredentialsEvents : List PoolEvent :=
  [.mutate "username", .mutate "password", .mutate "authenticationEnabled"]

/-- Events of `Pool.ReturnConnection` (pool.go lines 114-120). -/
def returnConnectionEvents : List PoolEvent := [.lock, .mutate "inUse", .unlock]

/-- Events of the private `Pool.discardConnection` (pool.go lines
122-132), whose contract requires the caller to hold the lock. -/
def discardConnectionEvents : List PoolEvent := [.mutate "recentConnections"]

/-- Events of the public `Pool.DiscardConnection` (pool.go lines 134-141);
the discarded-count increment performed after Unlock is an expvar atomic,
not scoped state. -/
def discardConnectionPublicEvents : List PoolEvent :=
  [.lock] ++ discardConnectionEvents ++ [.unlock]

/-- The scoped-state mutations the handshake/authentication phase of
`GetConnection` performs: a membership removal on failure, the in-use
flag write on success (pool.go lines 94-109). -/
def finishMutations (w : World) (g : GeodeConnection) : List String :=
  match handshake g with
  | .error _ => ["recentConnections"]
  | .ok g1 =>
    if w.pool.authenticationEnabled then
      match authenticate g1 w.pool.username w.pool.password with
      | .error _ => ["recentConnections"]
      | .ok _ => ["inUse"]
    else ["inUse"]

/-- The scoped-state mutations `GetConnection` performs on the given
world, in program order (pool.go lines 61-112): one provider-list edit
per provider removed by the walk, a membership append for a
provider-created connection, then the handshake/authentication-phase
mutations. -/
def getConnectionMutations (w : World) : List String :=
  match scanIdle w.pool.recentConnections with
  | some g => finishMutations w g
  | none =>
    let r := walkProviders w.pool.providers
    let removals := List.replicate (w.pool.providers.length - r.2.length) "providers"
    match r.1 with
    | some g => removals ++ ["recentConnections"] ++ finishMutations w g
    | none => removals

/-- Events of `Pool.GetConnection`: the lock is taken on entry (pool.go
line 65) and released by defer at return, so the whole body sits between
lock and unlock. -/
def getConnectionEvents (w : World) : List PoolEvent :=
  [.lock] ++ (getConnectionMutations w).map .mutate ++ [.unlock]

/-- Whether every mutation in the trace happens at positive lock depth. -/
def lockedFrom : List PoolEvent → Nat → Bool
  | [], _ => true
  | .lock :: r, d => lockedFrom r (d + 1)
  | .unlock :: r, d => lockedFrom r (d - 1)
  | .mutate _ :: r, d => decide (0 < d) && lockedFrom r d

/-- A trace respects the lock discipline when every scoped mutation
happens while the pool lock is held. -/
def mutationsLocked (tr : List PoolEvent) : Bool := lockedFrom tr 0

/-- C8 (counterexample): `AddConnection`, `AddServer` and `AddCredentials`
mutate the membership collection, the provider list, and the credential
fields without holding the pool-wide lock — their traces contain no lock
acquisition at all. -/
theorem c8_counterexample :
    mutationsLocked addConnectionEvents = false ∧
    mutationsLocked addServerEvents = false ∧
    mutationsLocked addCredentialsEvents = false := by
  decide

/-- A block of mutations bracketed by one lock/unlock pair is locked. -/
theorem lockedFrom_bracket (ms : List String) :
    ∀ d : Nat, 0 < d → lockedFrom (ms.map .mutate ++ [.unlock]) d = true := by
  induction ms with
  | nil => intro d hd; simp [lockedFrom]
  | cons m r ih =>
    intro d hd
    simp only [List.map_cons, List.cons_append, lockedFrom]
    rw [decide_eq_true hd]
    simpa using ih d hd

/-- C8 (amended): the three connection-lifecycle operations that can run
concurrently during normal use — `GetConnection` (on every input world),
`ReturnConnection`, and the public `DiscardConnection` — perform all
their scoped mutations (membership, provider list, in-use flag) while
holding the single pool-wide lock; the registration operations
`AddConnection`, `AddServer`, and `AddCredentials`, however, mutate
membership, the provider list, and the credential fields without the
lock. -/
theorem c8_lock_amended :
    (∀ w : World, mutationsLocked (getConnectionEvents w) = true) ∧
    mutationsLocked returnConnectionEvents = true ∧
    mutationsLocked discardConnectionPublicEvents = true ∧
    mutationsLocked addConnectionEvents = false ∧
    mutationsLocked addServerEvents = false ∧
    mutationsLocked addCredentialsEvents = false := by
  refine ⟨?_, by decide, by decide, by decide, by decide, by decide⟩
  intro w
  rw [mutationsLocked, getConnectionEvents]
  simp only [List.cons_append, List.nil_append, lockedFrom]
  exact lockedFrom_bracket (getConnectionMutations w) 1 (by decide)
